import Mathlib

/-!
Shallow embedding of the nimble-selector progression-resolution engine:
the DataProvider rule-table store, the CompendiumBrowser content index,
the equipment-proficiency resolver and the item granter, together with
theorems settling the specification claims about them.

JavaScript plain objects keyed by strings are embedded as association
lists (`List (String × β)`); `Number(key)` applied to a JSON object key
is embedded as `Option Int` (`none` models `NaN` from a non-numeric
key); JavaScript `Set` objects are embedded as insertion-ordered lists
without duplicates; `null`/`undefined` values are embedded as `Option`.
-/

namespace NimbleSelector

/-- Association-list lookup mirroring JavaScript plain-object property
access (`obj?.[key]`); the first matching key wins. -/
def alookup {β : Type} : List (String × β) → String → Option β
  | [], _ => none
  | (k, v) :: rest, key => if k = key then some v else alookup rest key

/-- JavaScript `Set.prototype.add` on an insertion-ordered list: append the
element only when it is not yet present. -/
def setAdd (l : List String) (s : String) : List String :=
  if s ∈ l then l else l ++ [s]

/-- Whitespace trimming on both ends of a character list os that
`jsTrim` mirrors `String.prototype.trim`. -/
def jsTrimList (cs : List Char) : List Char :=
  ((cs.dropWhile Char.isWhitespace).reverse.dropWhile Char.isWhitespace).reverse

/-- `str.trim()`. -/
def jsTrim (s : String) : String :=
  String.mk (jsTrimList s.data)

/-- `str.toLowerCase()`, character by character. -/
def jsToLower (s : String) : String :=
  String.mk (s.data.map Char.toLower)

/-- CompendiumBrowser.#normalizeString:
`String(str ?? '').toLowerCase().trim().replace(/['']/g, "'")`.  Both
characters in the regex class are the straight apostrophe, so the
replacement maps an apostrophe to itself and the function reduces to
lower-casing followed by trimming. -/
def normalizeString (s : String) : String :=
  jsTrim (jsToLower s)

/-- `str.endsWith(suffix)`. -/
def stringEndsWith (s suffix : String) : Bool :=
  List.isSuffixOf suffix.data s.data

/-- `'str'.replace('+', '')` — a string pattern replaces only the first
occurrence, working on the character list. -/
def removeFirstPlusAux : List Char → List Char
  | [] => []
  | c :: cs => if c = '+' then cs else c :: removeFirstPlusAux cs

/-- `school.replace('+', '')` used by DataProvider.getSpellSchools to strip
the "added" marker from a school tag. -/
def removeFirstPlus (s : String) : String :=
  String.mk (removeFirstPlusAux s.data)

/-- `Number(lvl) <= level` for a JSON object key: `none` models `NaN`, for
which every numeric comparison is false. -/
def keyLe (k : Option Int) (level : Int) : Bool :=
  match k with
  | some n => decide (n ≤ level)
  | none => false

/-- `!(Number(lvl) > level)` for the top-level choices loop of
DataProvider.getSpellSchools, which has no `Number.isNaN` guard: a `NaN`
key fails the `>` comparison and is therefore never skipped. -/
def choiceKeyLe (k : Option Int) (level : Int) : Bool :=
  match k with
  | some n => decide (n ≤ level)
  | none => true

/-! ### DataProvider: spell tiers -/

/-- Per-class record of the spell-tier table: `{ base, subclasses }`.  A
tier map is a list of `(Number(levelKey), tier)` entries; `base` is
`none` when the property is absent (`!classData?.base`). -/
structure TierClassData where
  base : Option (List (Option Int × Int))
  subclasses : List (String × List (Option Int × Int))

/-- DataProvider.#findMaxTierAtLevel: fold `maxTier = Math.max(maxTier,
tier)` over every entry whose level key satisfies `Number(lvl) <= level`,
starting from 0. -/
def findMaxTierAtLevel (m : List (Option Int × Int)) (level : Int) : Int :=
  m.foldl (fun acc e => if keyLe e.1 level then max acc e.2 else acc) 0

/-- The subclass tier map consulted first by DataProvider.getMaxSpellTier:
`classData?.subclasses?.[subclassIdentifier]` when a subclass is given. -/
def subclassTierTable (table : List (String × TierClassData)) (cls : String)
    (sub : Option String) : Option (List (Option Int × Int)) :=
  match sub with
  | some s => (alookup table cls).bind (fun cd => alookup cd.subclasses s)
  | none => none

/-- The base tier map: `classData?.base`. -/
def baseTierTable (table : List (String × TierClassData)) (cls : String) :
    Option (List (Option Int × Int)) :=
  (alookup table cls).bind (fun cd => cd.base)

/-- DataProvider.getMaxSpellTier: a subclass tier table, when present, is
authoritative; otherwise the base table is used; `-1` when neither
exists (`if (!classData?.base) return -1`). -/
def getMaxSpellTier (table : List (String × TierClassData)) (cls : String)
    (level : Int) (sub : Option String) : Int :=
  match subclassTierTable table cls sub with
  | some m => findMaxTierAtLevel m level
  | none =>
    match baseTierTable table cls with
    | some b => findMaxTierAtLevel b level
    | none => -1

/-- Whether the class is present in the spell-tier table for the given
subclass selection: a matching subclass tier map or a base tier map. -/
def hasTierTable (table : List (String × TierClassData)) (cls : String)
    (sub : Option String) : Bool :=
  (subclassTierTable table cls sub).isSome || (baseTierTable table cls).isSome

/-! ### DataProvider: spell schools -/

/-- An element of a school array; the code keeps only values with
`typeof school === 'string'`. -/
inductive SchoolEntry : Type
  | str (s : String)
  | nonStr
deriving DecidableEq

/-- The value found at a base-table level key; the code requires
`Array.isArray(schools)`. -/
inductive BaseSchoolsVal : Type
  | arr (xs : List SchoolEntry)
  | notArr
deriving DecidableEq

/-- A choice definition (`{ count, options }`) pushed opaquely onto the
choices output. -/
structure ChoiceData where
  count : Int
  options : List String
deriving DecidableEq

/-- The value found at a subclass-table level key: a plain school array, a
`{ choices: ... }` object, or anything else (ignored). -/
inductive SubSchoolsVal : Type
  | arr (xs : List SchoolEntry)
  | choiceObj (c : ChoiceData)
  | other
deriving DecidableEq

/-- Per-class record of the spell-school table:
`{ base, choices, subclasses }`; an absent property behaves like an
empty object, embedded as the empty list. -/
structure SchoolsClassData where
  base : List (Option Int × BaseSchoolsVal)
  choices : List (Option Int × ChoiceData)
  subclasses : List (String × List (Option Int × SubSchoolsVal))

/-- Result shape of DataProvider.getSpellSchools. -/
structure SchoolsResult where
  granted : List String
  choices : List ChoiceData
deriving DecidableEq

/-- The school strings contributed by one school array: string elements,
each with its first `'+'` removed. -/
def schoolStrings (xs : List SchoolEntry) : List String :=
  xs.filterMap (fun e =>
    match e with
    | SchoolEntry.str s => some (removeFirstPlus s)
    | SchoolEntry.nonStr => none)

/-- Schools contributed by a base-table value (`Array.isArray` guard). -/
def baseValSchools : BaseSchoolsVal → List String
  | BaseSchoolsVal.arr xs => schoolStrings xs
  | BaseSchoolsVal.notArr => []

/-- Schools contributed by a subclass-table value. -/
def subValSchools : SubSchoolsVal → List String
  | SubSchoolsVal.arr xs => schoolStrings xs
  | SubSchoolsVal.choiceObj _ => []
  | SubSchoolsVal.other => []

/-- The base-table accumulation loop of getSpellSchools: add the schools of
every level key `<=` the requested level to the granted set. -/
def gatherBaseGranted (cd : SchoolsClassData) (level : Int) : List String :=
  cd.base.foldl
    (fun a e => if keyLe e.1 level then (baseValSchools e.2).foldl setAdd a else a) []

/-- The top-level choices loop of getSpellSchools. -/
def gatherBaseChoices (cd : SchoolsClassData) (level : Int) : List ChoiceData :=
  cd.choices.foldl
    (fun a e => if choiceKeyLe e.1 level then a ++ [e.2] else a) []

/-- The subclass accumulation loop of getSpellSchools, continuing on the
granted set built from the base table. -/
def gatherSubGranted (subData : List (Option Int × SubSchoolsVal)) (level : Int)
    (acc : List String) : List String :=
  subData.foldl
    (fun a e => if keyLe e.1 level then (subValSchools e.2).foldl setAdd a else a) acc

/-- The subclass choice-collection part of the same loop. -/
def gatherSubChoices (subData : List (Option Int × SubSchoolsVal)) (level : Int)
    (acc : List ChoiceData) : List ChoiceData :=
  subData.foldl
    (fun a e =>
      if keyLe e.1 level then
        match e.2 with
        | SubSchoolsVal.choiceObj c => a ++ [c]
        | _ => a
      else a) acc

/-- The per-class body of getSpellSchools: base-table accumulation followed
by subclass-table accumulation when the selected subclass exists. -/
def spellSchoolsForClass (cd : SchoolsClassData) (level : Int)
    (sub : Option String) : SchoolsResult :=
  match sub with
  | some s =>
    match alookup cd.subclasses s with
    | some subData =>
      ⟨gatherSubGranted subData level (gatherBaseGranted cd level),
       gatherSubChoices subData level (gatherBaseChoices cd level)⟩
    | none => ⟨gatherBaseGranted cd level, gatherBaseChoices cd level⟩
  | none => ⟨gatherBaseGranted cd level, gatherBaseChoices cd level⟩

/-- DataProvider.getSpellSchools. -/
def getSpellSchools (table : List (String × SchoolsClassData)) (cls : String)
    (level : Int) (sub : Option String) : SchoolsResult :=
  match alookup table cls with
  | none => ⟨[], []⟩
  | some cd => spellSchoolsForClass cd level sub

/-! ### DataProvider: equipment proficiencies and load -/

/-- `{ armor, weapons }` proficiency tag lists for one class. -/
structure Proficiencies where
  armor : List String
  weapons : List String
deriving DecidableEq

/-- DataProvider.getEquipmentProficiencies:
`this.#equipmentProficiencies?.[classIdentifier] ?? { armor: [], weapons: [] }`. -/
def getEquipmentProficiencies (table : List (String × Proficiencies))
    (cls : String) : Proficiencies :=
  (alookup table cls).getD ⟨[], []⟩

/-- Outcome of one resource-file fetch: a parsed payload, a response with
`!response.ok`, or a thrown error. -/
inductive FetchOutcome (α : Type) : Type
  | ok (data : α)
  | httpError
  | thrown

/-- DataProvider.#fetchJSON: returns the parsed payload on success and the
empty object (here, the empty table passed as `emptyObj`) on a non-ok
response or a thrown error, absorbing both through the try/catch. -/
def fetchJSON {α : Type} (emptyObj : α) : FetchOutcome α → α
  | FetchOutcome.ok d => d
  | FetchOutcome.httpError => emptyObj
  | FetchOutcome.thrown => emptyObj

/-- Whether a fetch outcome is a failure of either kind. -/
def isFailure {α : Type} : FetchOutcome α → Bool
  | FetchOutcome.ok _ => false
  | FetchOutcome.httpError => true
  | FetchOutcome.thrown => true

/-- The environment seen by DataProvider.load: one fetch outcome per
resource file. -/
structure LoadEnv where
  spellSchoolsRes : FetchOutcome (List (String × SchoolsClassData))
  spellTiersRes : FetchOutcome (List (String × TierClassData))
  equipmentProficienciesRes : FetchOutcome (List (String × Proficiencies))

/-- The cached tables after DataProvider.load completes. -/
structure DataProviderState where
  spellSchools : List (String × SchoolsClassData)
  spellTiers : List (String × TierClassData)
  equipmentProficiencies : List (String × Proficiencies)

/-- DataProvider.load: fetch the three resource files and store each result
in its own cache slot. -/
def loadDataProvider (env : LoadEnv) : DataProviderState :=
  { spellSchools := fetchJSON [] env.spellSchoolsRes,
    spellTiers := fetchJSON [] env.spellTiersRes,
    equipmentProficiencies := fetchJSON [] env.equipmentProficienciesRes }

/-! ### CompendiumBrowser: feature index -/

/-- One indexed class-feature entry as built by
CompendiumBrowser.#indexFeatures (`cls` embeds the `class` field;
`normalizedClass` caches `#normalizeString(cls)`). -/
structure FeatureData where
  uuid : String
  name : String
  img : String
  cls : String
  normalizedClass : String
  featureType : String
  group : String
  description : String
  gainedAtLevels : List Int
  subclass : Bool
deriving DecidableEq

/-- One record of the progression output of getClassFeatures. -/
structure ProgressionEntry where
  uuid : String
  name : String
  img : String
  description : String
  level : Int
  group : String
deriving DecidableEq

/-- The selectableGroups output: a JavaScript `Map` from group id to the
entries pushed under it, embedded as an insertion-ordered association
list with unique keys. -/
def GroupMap : Type := List (String × List FeatureData)

/-- `Map.get(k) ?? []` on a group map. -/
def groupLookupD (g : GroupMap) (k : String) : List FeatureData :=
  (alookup g k).getD []

/-- Push a feature onto the bucket for `k`, creating the bucket at the end
of the map when it does not exist yet (JavaScript `Map.set` keeps the
position of an existing key and appends a new one). -/
def groupAdd (g : GroupMap) (k : String) (f : FeatureData) : GroupMap :=
  match g with
  | [] => [(k, [f])]
  | (k1, l) :: rest =>
    if k1 = k then (k1, l ++ [f]) :: rest else (k1, l) :: groupAdd rest k f

/-- `f.gainedAtLevels.filter((l) => l >= fromLevel && l <= toLevel)`. -/
def levelsInRange (f : FeatureData) (fromLevel toLevel : Int) : List Int :=
  f.gainedAtLevels.filter (fun l => decide (fromLevel ≤ l) && decide (l ≤ toLevel))

/-- `f.group.endsWith('-progression')`. -/
def isProgressionGroup (f : FeatureData) : Bool :=
  stringEndsWith f.group "-progression"

/-- `isSubclass && (!subclassIdentifier || f.group !== subclassIdentifier)`:
a subclass-flagged entry whose group does not name the selected
subclass. -/
def subclassMismatch (sub : Option String) (f : FeatureData) : Bool :=
  f.subclass &&
    (match sub with
     | none => true
     | some s => decide (f.group ≠ s))

/-- The progression records pushed for one feature: one per matching
level. -/
def progressionEntriesFor (f : FeatureData) (levels : List Int) : List ProgressionEntry :=
  levels.map (fun l =>
    { uuid := f.uuid, name := f.name, img := f.img,
      description := f.description, level := l, group := f.group })

/-- The per-feature loop body of CompendiumBrowser.getClassFeatures,
threading the progression list and the group map. -/
def gcfLoop (fromLevel toLevel : Int) (sub : Option String) :
    List FeatureData → List ProgressionEntry → GroupMap →
    List ProgressionEntry × GroupMap
  | [], prog, groups => (prog, groups)
  | f :: rest, prog, groups =>
    let levels := levelsInRange f fromLevel toLevel
    if levels.isEmpty then
      gcfLoop fromLevel toLevel sub rest prog groups
    else if subclassMismatch sub f then
      gcfLoop fromLevel toLevel sub rest prog groups
    else if !f.subclass && !isProgressionGroup f then
      gcfLoop fromLevel toLevel sub rest prog (groupAdd groups f.group f)
    else
      gcfLoop fromLevel toLevel sub rest (prog ++ progressionEntriesFor f levels) groups

/-- Result shape of getClassFeatures. -/
structure ClassFeaturesResult where
  progression : List ProgressionEntry
  selectableGroups : GroupMap

/-- The class-keyed feature list consulted by getClassFeatures:
`this.#featureByClassIndex.get(#normalizeString(classIdentifier)) ?? []`. -/
def classFeatureList (featureByClassIndex : List (String × List FeatureData))
    (cls : String) : List FeatureData :=
  (alookup featureByClassIndex (normalizeString cls)).getD []

/-- CompendiumBrowser.getClassFeatures. -/
def getClassFeatures (featureByClassIndex : List (String × List FeatureData))
    (cls : String) (fromLevel toLevel : Int) (sub : Option String) :
    ClassFeaturesResult :=
  let r := gcfLoop fromLevel toLevel sub (classFeatureList featureByClassIndex cls) [] []
  { progression := r.1, selectableGroups := r.2 }

/-! ### CompendiumBrowser: findFeaturesByName -/

/-- One result record of findFeaturesByName. -/
structure FeatureResult where
  uuid : Option String
  name : String
  img : String
  matched : Bool
  description : String
deriving DecidableEq

/-- Decide whether the reversed character list ends the pattern
`\(\d+\)$` with optional leading whitespace, returning the remaining
reversed characters when it does. -/
def stripSuffixRev : List Char → Option (List Char)
  | ')' :: rest =>
    let digits := rest.takeWhile Char.isDigit
    let rest1 := rest.dropWhile Char.isDigit
    if digits.isEmpty then none
    else
      match rest1 with
      | '(' :: rest2 => some (rest2.dropWhile Char.isWhitespace)
      | _ => none
  | _ => none

/-- CompendiumBrowser.#stripNumericSuffix:
`str.replace(/\s*\(\d+\)$/, '').trim()`. -/
def stripNumericSuffix (s : String) : String :=
  match stripSuffixRev s.data.reverse with
  | some rest => jsTrim (String.mk rest.reverse)
  | none => jsTrim s

/-- Candidate selection for one requested name: look the normalized key up
in the name index, and when that yields nothing and the key has a
trailing parenthesized numeric suffix, retry with the suffix
stripped. -/
def resolveCandidates (featureIndex : List (String × List FeatureData))
    (key : String) : List FeatureData :=
  let candidates := (alookup featureIndex key).getD []
  if candidates.isEmpty then
    let baseKey := stripNumericSuffix key
    if baseKey ≠ key then (alookup featureIndex baseKey).getD [] else candidates
  else candidates

/-- The per-name body of findFeaturesByName: prefer the first candidate
whose normalized class matches, fall back to the first candidate, and
degrade to a placeholder record when there is none. -/
def findFeatureOne (featureIndex : List (String × List FeatureData))
    (normalizedClass : String) (name : String) : FeatureResult :=
  let key := normalizeString name
  let candidates := resolveCandidates featureIndex key
  let m :=
    match candidates.find? (fun c => c.normalizedClass = normalizedClass) with
    | some c => some c
    | none => candidates.head?
  { uuid := m.map (fun c => c.uuid),
    name := name,
    img := (m.map (fun c => c.img)).getD "icons/svg/mystery-man.svg",
    matched := m.isSome,
    description := (m.map (fun c => c.description)).getD "" }

/-- CompendiumBrowser.findFeaturesByName. -/
def findFeaturesByName (featureIndex : List (String × List FeatureData))
    (featureNames : List String) (cls : String) : List FeatureResult :=
  featureNames.map (findFeatureOne featureIndex (normalizeString cls))

/-! ### CompendiumBrowser: equipment index -/

/-- One indexed equipment entry; `normalizedType` caches
`#normalizeString(objectType)`, and the `armorType`, `weaponAttr` and
`isRanged` attributes are the type-specific fields read by the
proficiency resolver (`null`/`undefined` embedded as `none`, truthiness
of `isRanged` as a Bool). -/
structure EquipmentItem where
  uuid : String
  name : String
  img : String
  objectType : String
  normalizedType : String
  armorType : Option String
  weaponAttr : String
  isRanged : Bool
deriving DecidableEq

/-- CompendiumBrowser.findEquipmentByType: keep the indexed items whose
normalized type is in the requested set, sorted by name. -/
def findEquipmentByType (itemIndex : List EquipmentItem)
    (objectTypes : List String) : List EquipmentItem :=
  let normalizedTypes := objectTypes.map normalizeString
  (itemIndex.filter (fun i => i.normalizedType ∈ normalizedTypes)).mergeSort
    (fun a b => decide (a.name ≤ b.name))

/-! ### EquipmentProficiencyResolver -/

/-- The object-type set assembled by findAvailableEquipment from the class
proficiencies, in insertion order. -/
def availableObjectTypes (p : Proficiencies) : List String :=
  let t1 : List String := []
  let t2 := if p.armor.length > 0 then setAdd t1 "armor" else t1
  let t3 := if "shields" ∈ p.armor ∨ "all" ∈ p.armor then setAdd t2 "shield" else t2
  let t4 := if p.weapons.length > 0 then setAdd t3 "weapon" else t3
  setAdd (setAdd t4 "consumable") "misc"

/-- EquipmentProficiencyResolver.findAvailableEquipment. -/
def findAvailableEquipment (profTable : List (String × Proficiencies))
    (itemIndex : List EquipmentItem) (cls : String) : List EquipmentItem :=
  findEquipmentByType itemIndex
    (availableObjectTypes (getEquipmentProficiencies profTable cls))

/-- The weapon-category membership lookup backing
`#getWeaponCategoryIndex().get(tag)`: the category table maps a tag to
its list of weapon names. -/
def weaponCategoryNames (categories : List (String × List String))
    (tag : String) : Option (List String) :=
  alookup categories tag

/-- EquipmentProficiencyResolver.#matchesWeaponProficiency: walk the weapon
tags in order; the first admitting tag returns true, and the loop
falls through to false. -/
def matchesWeaponProficiency (categories : List (String × List String))
    (item : EquipmentItem) : List String → Bool
  | [] => false
  | tag :: rest =>
    if tag = "all-martial" then true
    else if tag = "str" ∨ tag = "all-str" then
      if item.weaponAttr = "strength" then true
      else matchesWeaponProficiency categories item rest
    else if tag = "dex" then
      if item.weaponAttr = "dexterity" then true
      else matchesWeaponProficiency categories item rest
    else if tag = "melee" then
      if item.isRanged = false then true
      else matchesWeaponProficiency categories item rest
    else
      match weaponCategoryNames categories tag with
      | some names =>
        if item.name ∈ names then true
        else matchesWeaponProficiency categories item rest
      | none => matchesWeaponProficiency categories item rest

/-- EquipmentProficiencyResolver.matchesProficiency. -/
def matchesProficiency (categories : List (String × List String))
    (item : EquipmentItem) (p : Proficiencies) : Bool :=
  if item.objectType = "consumable" ∨ item.objectType = "misc" then true
  else if item.objectType = "shield" then
    decide ("shields" ∈ p.armor ∨ "all" ∈ p.armor)
  else if item.objectType = "armor" then
    if "all" ∈ p.armor then true
    else
      match item.armorType with
      | some a => decide (a ∈ p.armor)
      | none => false
  else if item.objectType = "weapon" then
    matchesWeaponProficiency categories item p.weapons
  else true

/-- Declarative reading of one weapon tag admitting an item, used to state
the correctness of the ordered tag loop. -/
def tagAdmits (categories : List (String × List String)) (item : EquipmentItem)
    (tag : String) : Prop :=
  tag = "all-martial" ∨
  ((tag = "str" ∨ tag = "all-str") ∧ item.weaponAttr = "strength") ∨
  (tag = "dex" ∧ item.weaponAttr = "dexterity") ∨
  (tag = "melee" ∧ item.isRanged = false) ∨
  (tag ∉ (["all-martial", "str", "all-str", "dex", "melee"] : List String) ∧
    ∃ names, weaponCategoryNames categories tag = some names ∧ item.name ∈ names)

/-! ### ItemGranter -/

/-- The full compendium record resolved for a UUID before granting. -/
structure SourceDoc where
  name : String
  docType : String
  flagSourceId : Option String
deriving DecidableEq

/-- One owned-item record on an actor.  `localId` embeds `_id`;
`compendiumSource` embeds `_stats.compendiumSource` and `sourceIdFlag`
embeds `flags.core.sourceId`. -/
structure OwnedItem where
  localId : Nat
  name : String
  docType : String
  compendiumSource : Option String
  sourceIdFlag : Option String
deriving DecidableEq

/-- An actor: the list of owned-item records. -/
structure Actor where
  items : List OwnedItem
deriving DecidableEq

/-- The resolution environment of the granter: what
CompendiumBrowser.getFullDocument returns per UUID (`none` embeds an
unresolvable identity). -/
structure GrantEnv where
  docs : List (String × SourceDoc)

/-- `item._stats?.compendiumSource ?? item.flags?.core?.sourceId`. -/
def itemSource (i : OwnedItem) : Option String :=
  match i.compendiumSource with
  | some s => some s
  | none => i.sourceIdFlag

/-- ItemGranter.actorHasItemFromSource. -/
def actorHasItemFromSource (a : Actor) (uuid : String) : Bool :=
  a.items.any (fun i => itemSource i = some uuid)

/-- ItemGranter.#prepareItemFromUuid: resolve the UUID, clone the document
(`toObject`), stamp a fresh local id (`foundry.utils.randomID()`,
embedded as a counter threaded through the computation) and set
`_stats.compendiumSource` to the UUID.  Returns the prepared record and
the next counter value. -/
def prepareItemFromUuid (env : GrantEnv) (nextId : Nat) (uuid : String) :
    Option OwnedItem × Nat :=
  match alookup env.docs uuid with
  | none => (none, nextId)
  | some d =>
    (some { localId := nextId, name := d.name, docType := d.docType,
            compendiumSource := some uuid, sourceIdFlag := d.flagSourceId },
     nextId + 1)

/-- The preparation loop of grantItemsByUuid: prepare every UUID in order
and keep the non-null records (`prepared.filter(Boolean)` in the
part_007 revision is the same filtering applied in sequence). -/
def grantLoop (env : GrantEnv) : List String → Nat → List OwnedItem →
    List OwnedItem × Nat
  | [], nextId, acc => (acc, nextId)
  | uuid :: rest, nextId, acc =>
    match prepareItemFromUuid env nextId uuid with
    | (some it, n1) => grantLoop env rest n1 (acc ++ [it])
    | (none, n1) => grantLoop env rest n1 acc

/-- ItemGranter.grantItemsByUuid: empty input and an all-unresolved batch
are no-ops; otherwise `createEmbeddedDocuments('Item', ..., { keepId:
true })` appends the prepared records to the actor and returns them.
The result carries the updated actor, the created records and the
freshness counter. -/
def grantItemsByUuid (env : GrantEnv) (a : Actor) (uuids : List String)
    (nextId : Nat) : Actor × List OwnedItem × Nat :=
  if uuids.isEmpty then (a, [], nextId)
  else
    let r := grantLoop env uuids nextId []
    if r.1.isEmpty then (a, [], r.2)
    else (⟨a.items ++ r.1⟩, r.1, r.2)

/-! ### Shared lemmas -/

theorem mem_setAdd {l : List String} {x s : String} :
    s ∈ setAdd l x ↔ s ∈ l ∨ s = x := by
  unfold setAdd
  by_cases h : x ∈ l
  · simp only [h, if_true]
    constructor
    · exact Or.inl
    · rintro (hs | rfl)
      · exact hs
      · exact h
  · simp [h]

theorem keyLe_mono {k : Option Int} {l l1 : Int} (h : l ≤ l1)
    (hk : keyLe k l = true) : keyLe k l1 = true := by
  cases k with
  | none => simp [keyLe] at hk
  | some n =>
    simp only [keyLe, decide_eq_true_eq] at hk ⊢
    omega

theorem choiceKeyLe_mono {k : Option Int} {l l1 : Int} (h : l ≤ l1)
    (hk : choiceKeyLe k l = true) : choiceKeyLe k l1 = true := by
  cases k with
  | none => rfl
  | some n =>
    simp only [choiceKeyLe, decide_eq_true_eq] at hk ⊢
    omega

theorem findMax_fold_mono {l l1 : Int} (h : l ≤ l1) (m : List (Option Int × Int)) :
    ∀ a a1 : Int, a ≤ a1 →
      m.foldl (fun acc e => if keyLe e.1 l then max acc e.2 else acc) a ≤
        m.foldl (fun acc e => if keyLe e.1 l1 then max acc e.2 else acc) a1 := by
  induction m with
  | nil => intro a a1 ha; simpa using ha
  | cons e rest ih =>
    intro a a1 ha
    simp only [List.foldl_cons]
    apply ih
    cases hk : keyLe e.1 l with
    | false =>
      simp only [hk, Bool.false_eq_true, if_false]
      cases hk1 : keyLe e.1 l1 with
      | false => simpa [hk1] using ha
      | true =>
        simp only [hk1, if_true]
        exact le_trans ha (le_max_left a1 e.2)
    | true =>
      simp only [hk, keyLe_mono h hk, if_true]
      exact max_le_max ha le_rfl

theorem findMaxTierAtLevel_mono {l l1 : Int} (h : l ≤ l1)
    (m : List (Option Int × Int)) :
    findMaxTierAtLevel m l ≤ findMaxTierAtLevel m l1 :=
  findMax_fold_mono h m 0 0 le_rfl

theorem findMax_fold_nonneg (l : Int) (m : List (Option Int × Int)) :
    ∀ a : Int, 0 ≤ a →
      0 ≤ m.foldl (fun acc e => if keyLe e.1 l then max acc e.2 else acc) a := by
  induction m with
  | nil => intro a ha; simpa using ha
  | cons e rest ih =>
    intro a ha
    simp only [List.foldl_cons]
    apply ih
    cases hk : keyLe e.1 l with
    | false => simpa [hk] using ha
    | true =>
      simp only [hk, if_true]
      exact le_trans ha (le_max_left a e.2)

theorem findMaxTierAtLevel_nonneg (m : List (Option Int × Int)) (l : Int) :
    0 ≤ findMaxTierAtLevel m l :=
  findMax_fold_nonneg l m 0 le_rfl

/-! ### Claim C5 -/

/-- Claim C5: for every class identifier, fixed subclass selection and level, the
max spell tier returned by getMaxSpellTier is monotonically
non-decreasing as the level increases by one. -/
theorem getMaxSpellTier_monotone (table : List (String × TierClassData))
    (cls : String) (level : Int) (sub : Option String) :
    getMaxSpellTier table cls level sub ≤ getMaxSpellTier table cls (level + 1) sub := by
  unfold getMaxSpellTier
  cases subclassTierTable table cls sub with
  | some m => exact findMaxTierAtLevel_mono (by omega) m
  | none =>
    cases baseTierTable table cls with
    | some b => exact findMaxTierAtLevel_mono (by omega) b
    | none => exact le_refl _

/-! ### Claim C9 -/

/-- Claim C9: a class present in the spell-tier table (a base tier map exists, or
the selected subclass has a tier map) gets a result of at least 0 from
getMaxSpellTier at every level, even below the first defined table
level; the "no spellcasting" sentinel -1 is returned exactly when
neither map exists. -/
theorem getMaxSpellTier_presence (table : List (String × TierClassData))
    (cls : String) (level : Int) (sub : Option String) :
    (hasTierTable table cls sub = true → 0 ≤ getMaxSpellTier table cls level sub) ∧
    (hasTierTable table cls sub = false → getMaxSpellTier table cls level sub = -1) := by
  unfold hasTierTable getMaxSpellTier
  cases subclassTierTable table cls sub with
  | some m =>
    exact ⟨fun _ => findMaxTierAtLevel_nonneg m level, fun h => by simp at h⟩
  | none =>
    cases baseTierTable table cls with
    | some b =>
      exact ⟨fun _ => findMaxTierAtLevel_nonneg b level, fun h => by simp at h⟩
    | none => exact ⟨fun h => by simp at h, fun _ => rfl⟩

/-- Witness for C9 at concrete tables: a class with a base tier map yields a
non-negative tier below its first defined level, and an absent class
yields -1. -/
theorem getMaxSpellTier_presence_witness :
    0 ≤ getMaxSpellTier [("mage", ⟨some [(some 3, 2)], []⟩)] "mage" 1 none ∧
    getMaxSpellTier [("mage", ⟨some [(some 3, 2)], []⟩)] "rogue" 5 none = -1 :=
  ⟨(getMaxSpellTier_presence [("mage", ⟨some [(some 3, 2)], []⟩)] "mage" 1 none).1
      (by decide),
   (getMaxSpellTier_presence [("mage", ⟨some [(some 3, 2)], []⟩)] "rogue" 5 none).2
      (by decide)⟩

/-! ### Claim C3 -/

/-- Queries against an empty school table return the empty result. -/
theorem getSpellSchools_empty_table (cls : String) (level : Int)
    (sub : Option String) :
    getSpellSchools [] cls level sub = ⟨[], []⟩ := rfl

theorem getMaxSpellTier_empty_table (cls : String) (level : Int)
    (sub : Option String) :
    getMaxSpellTier [] cls level sub = -1 := by
  cases sub <;> rfl

/-- Claim C3: when an individual rule-table fetch fails — with a non-ok response
or a thrown error — load still completes: the failed table degrades to
the empty object, a successfully fetched table is stored as parsed, and
every query against a degraded table returns its empty result (empty
school/choice lists, the -1 no-spellcasting sentinel, empty proficiency
lists) instead of throwing. -/
theorem loadDataProvider_failure_isolation (env : LoadEnv) :
    (isFailure env.spellSchoolsRes = true →
      (loadDataProvider env).spellSchools = [] ∧
      ∀ (cls : String) (level : Int) (sub : Option String),
        getSpellSchools (loadDataProvider env).spellSchools cls level sub = ⟨[], []⟩) ∧
    (∀ t, env.spellSchoolsRes = FetchOutcome.ok t →
      (loadDataProvider env).spellSchools = t) ∧
    (isFailure env.spellTiersRes = true →
      (loadDataProvider env).spellTiers = [] ∧
      ∀ (cls : String) (level : Int) (sub : Option String),
        getMaxSpellTier (loadDataProvider env).spellTiers cls level sub = -1) ∧
    (∀ t, env.spellTiersRes = FetchOutcome.ok t →
      (loadDataProvider env).spellTiers = t) ∧
    (isFailure env.equipmentProficienciesRes = true →
      (loadDataProvider env).equipmentProficiencies = [] ∧
      ∀ cls : String,
        getEquipmentProficiencies (loadDataProvider env).equipmentProficiencies cls =
          ⟨[], []⟩) ∧
    (∀ t, env.equipmentProficienciesRes = FetchOutcome.ok t →
      (loadDataProvider env).equipmentProficiencies = t) := by
  refine ⟨?_, ?_, ?_, ?_, ?_, ?_⟩
  · intro h
    have hs : (loadDataProvider env).spellSchools = [] := by
      cases henv : env.spellSchoolsRes with
      | ok d => rw [henv] at h; simp [isFailure] at h
      | httpError => simp [loadDataProvider, fetchJSON, henv]
      | thrown => simp [loadDataProvider, fetchJSON, henv]
    exact ⟨hs, fun cls level sub => by rw [hs]; exact getSpellSchools_empty_table cls level sub⟩
  · intro t ht; simp [loadDataProvider, ht, fetchJSON]
  · intro h
    have hs : (loadDataProvider env).spellTiers = [] := by
      cases henv : env.spellTiersRes with
      | ok d => rw [henv] at h; simp [isFailure] at h
      | httpError => simp [loadDataProvider, fetchJSON, henv]
      | thrown => simp [loadDataProvider, fetchJSON, henv]
    exact ⟨hs, fun cls level sub => by rw [hs]; exact getMaxSpellTier_empty_table cls level sub⟩
  · intro t ht; simp [loadDataProvider, ht, fetchJSON]
  · intro h
    have hs : (loadDataProvider env).equipmentProficiencies = [] := by
      cases henv : env.equipmentProficienciesRes with
      | ok d => rw [henv] at h; simp [isFailure] at h
      | httpError => simp [loadDataProvider, fetchJSON, henv]
      | thrown => simp [loadDataProvider, fetchJSON, henv]
    exact ⟨hs, fun cls => by rw [hs]; rfl⟩
  · intro t ht; simp [loadDataProvider, ht, fetchJSON]

/-- Concrete load environment for the C3 witness: the schools fetch throws,
the tier fetch succeeds, the proficiency fetch gets a non-ok response. -/
def c3Env : LoadEnv :=
  ⟨FetchOutcome.thrown,
   FetchOutcome.ok [("mage", ⟨some [(some 1, 1)], []⟩)],
   FetchOutcome.httpError⟩

/-- Witness for C3 at a concrete environment. -/
theorem loadDataProvider_failure_isolation_witness :
    (loadDataProvider c3Env).spellSchools = [] ∧
    getSpellSchools (loadDataProvider c3Env).spellSchools "mage" 3 none = ⟨[], []⟩ ∧
    (loadDataProvider c3Env).spellTiers = [("mage", ⟨some [(some 1, 1)], []⟩)] ∧
    getEquipmentProficiencies (loadDataProvider c3Env).equipmentProficiencies "mage" =
      ⟨[], []⟩ := by
  have h := loadDataProvider_failure_isolation c3Env
  exact ⟨(h.1 rfl).1, (h.1 rfl).2 "mage" 3 none,
    h.2.2.2.1 _ rfl, ((h.2.2.2.2.1) rfl).2 "mage"⟩

/-! ### Claim C2 -/

/-- Claim C2: findAvailableEquipment queries the content index with exactly the
union of object types implied by the class proficiencies: "armor" when
the armor list is non-empty, "shield" when it contains "shields" or
"all", "weapon" when the weapon list is non-empty, plus the
unconditional "consumable" and "misc". -/
theorem findAvailableEquipment_spec (profTable : List (String × Proficiencies))
    (itemIndex : List EquipmentItem) (cls : String) :
    findAvailableEquipment profTable itemIndex cls =
      findEquipmentByType itemIndex
        (availableObjectTypes (getEquipmentProficiencies profTable cls)) ∧
    ∀ t : String,
      t ∈ availableObjectTypes (getEquipmentProficiencies profTable cls) ↔
        ((t = "armor" ∧ (getEquipmentProficiencies profTable cls).armor ≠ []) ∨
         (t = "shield" ∧
           ("shields" ∈ (getEquipmentProficiencies profTable cls).armor ∨
            "all" ∈ (getEquipmentProficiencies profTable cls).armor)) ∨
         (t = "weapon" ∧ (getEquipmentProficiencies profTable cls).weapons ≠ []) ∨
         t = "consumable" ∨ t = "misc") := by
  refine ⟨rfl, fun t => ?_⟩
  by_cases h1 : (getEquipmentProficiencies profTable cls).armor = [] <;>
  by_cases h2 : "shields" ∈ (getEquipmentProficiencies profTable cls).armor ∨
    "all" ∈ (getEquipmentProficiencies profTable cls).armor <;>
  by_cases h3 : (getEquipmentProficiencies profTable cls).weapons = [] <;>
  simp only [availableObjectTypes, List.length_pos, h1, h2, h3, if_true, if_false,
    not_true, not_false_iff, ne_eq, not_true_eq_false, not_false_eq_true,
    mem_setAdd, List.not_mem_nil] <;>
  simp [mem_setAdd, h1, h2, h3] <;>
  tauto

/-! ### Claim C10 -/

/-- Claim C10: an item whose object type is none of "consumable", "misc",
"shield", "armor" or "weapon" passes matchesProficiency regardless of
the proficiency lists. -/
theorem matchesProficiency_unknown_type (categories : List (String × List String))
    (item : EquipmentItem) (p : Proficiencies)
    (h : item.objectType ∉
      (["consumable", "misc", "shield", "armor", "weapon"] : List String)) :
    matchesProficiency categories item p = true := by
  simp only [List.mem_cons, List.not_mem_nil, or_false, not_or] at h
  obtain ⟨h1, h2, h3, h4, h5⟩ := h
  simp [matchesProficiency, h1, h2, h3, h4, h5]

/-- Witness for C10 at a concrete item of object type "gadget". -/
theorem matchesProficiency_unknown_type_witness :
    matchesProficiency []
      ⟨"u1", "Gizmo", "img", "gadget", "gadget", none, "", false⟩
      ⟨[], []⟩ = true :=
  matchesProficiency_unknown_type []
    ⟨"u1", "Gizmo", "img", "gadget", "gadget", none, "", false⟩
    ⟨[], []⟩ (by decide)

/-! ### Claim C7 -/

/-- The ordered weapon-tag loop admits an item exactly when some tag in the
list admits it under the per-tag rules. -/
theorem matchesWeaponProficiency_iff (categories : List (String × List String))
    (item : EquipmentItem) (tags : List String) :
    matchesWeaponProficiency categories item tags = true ↔
      ∃ tag ∈ tags, tagAdmits categories item tag := by
  induction tags with
  | nil => simp [matchesWeaponProficiency]
  | cons tag rest ih =>
    simp only [List.mem_cons, exists_eq_or_imp]
    by_cases h1 : tag = "all-martial"
    · subst h1
      simp [matchesWeaponProficiency, tagAdmits]
    · by_cases h2 : tag = "str" ∨ tag = "all-str"
      · rcases h2 with rfl | rfl <;>
          by_cases ha : item.weaponAttr = "strength" <;>
          simp [matchesWeaponProficiency, tagAdmits, ha, ih]
      · have h2a : tag ≠ "str" := fun hc => h2 (Or.inl hc)
        have h2b : tag ≠ "all-str" := fun hc => h2 (Or.inr hc)
        by_cases h3 : tag = "dex"
        · subst h3
          by_cases ha : item.weaponAttr = "dexterity" <;>
            simp [matchesWeaponProficiency, tagAdmits, ha, ih]
        · by_cases h4 : tag = "melee"
          · subst h4
            cases hr : item.isRanged <;>
              simp [matchesWeaponProficiency, tagAdmits, hr, ih]
          · cases hcat : weaponCategoryNames categories tag with
            | none =>
              simp [matchesWeaponProficiency, tagAdmits, h1, h2a, h2b, h3, h4,
                hcat, ih]
            | some names =>
              by_cases hn : item.name ∈ names <;>
                simp [matchesWeaponProficiency, tagAdmits, h1, h2a, h2b, h3, h4,
                  hcat, hn, ih]

/-- Claim C7: matchesProficiency accepts consumable and misc items
unconditionally; accepts a shield exactly when the armor tags contain
"shields" or "all"; accepts armor exactly when the tags contain "all"
or the item's armor category; accepts a weapon exactly when some weapon
tag admits it under the ordered tag rules; and rejects a ranged
dexterity-axis weapon offered only the "melee" tag. -/
theorem matchesProficiency_spec (categories : List (String × List String))
    (item : EquipmentItem) (p : Proficiencies) :
    (item.objectType = "consumable" ∨ item.objectType = "misc" →
      matchesProficiency categories item p = true) ∧
    (item.objectType = "shield" →
      (matchesProficiency categories item p = true ↔
        "shields" ∈ p.armor ∨ "all" ∈ p.armor)) ∧
    (item.objectType = "armor" →
      (matchesProficiency categories item p = true ↔
        "all" ∈ p.armor ∨ ∃ a, item.armorType = some a ∧ a ∈ p.armor)) ∧
    (item.objectType = "weapon" →
      (matchesProficiency categories item p = true ↔
        ∃ tag ∈ p.weapons, tagAdmits categories item tag)) ∧
    (item.objectType = "weapon" → item.weaponAttr = "dexterity" →
      item.isRanged = true → p.weapons = ["melee"] →
      matchesProficiency categories item p = false) := by
  refine ⟨?_, ?_, ?_, ?_, ?_⟩
  · intro h
    rcases h with h | h <;> simp [matchesProficiency, h]
  · intro h
    simp [matchesProficiency, h]
  · intro h
    by_cases hall : "all" ∈ p.armor
    · simp [matchesProficiency, h, hall]
    · cases hat : item.armorType with
      | none => simp [matchesProficiency, h, hall, hat]
      | some a => simp [matchesProficiency, h, hall, hat]
  · intro h
    simp only [matchesProficiency, h]
    simp only [show ("weapon" : String) = "consumable" ∨ ("weapon" : String) = "misc" ↔
      False by simp, if_false]
    simp only [show (("weapon" : String) = "shield") = False by simp,
      show (("weapon" : String) = "armor") = False by simp, if_false, if_true]
    exact matchesWeaponProficiency_iff categories item p.weapons
  · intro h hattr hr hw
    simp [matchesProficiency, h, hw, matchesWeaponProficiency, hr]

/-- Witness for C7: a shield admitted through an "all" armor tag, and the
ranged dexterity-axis weapon rejected under tags ["melee"]. -/
theorem matchesProficiency_spec_witness :
    matchesProficiency []
      ⟨"u1", "Buckler", "img", "shield", "shield", none, "", false⟩
      ⟨["all"], []⟩ = true ∧
    matchesProficiency []
      ⟨"u2", "Longbow", "img", "weapon", "weapon", none, "dexterity", true⟩
      ⟨[], ["melee"]⟩ = false := by
  constructor
  · exact ((matchesProficiency_spec []
      ⟨"u1", "Buckler", "img", "shield", "shield", none, "", false⟩
      ⟨["all"], []⟩).2.1 rfl).mpr (Or.inr (by decide))
  · exact (matchesProficiency_spec []
      ⟨"u2", "Longbow", "img", "weapon", "weapon", none, "dexterity", true⟩
      ⟨[], ["melee"]⟩).2.2.2.2 rfl rfl rfl rfl

/-! ### Claim C6 -/

theorem mem_foldl_setAdd (xs : List String) :
    ∀ (acc : List String) (s : String),
      s ∈ xs.foldl setAdd acc ↔ s ∈ acc ∨ s ∈ xs := by
  induction xs with
  | nil => simp
  | cons x rest ih =>
    intro acc s
    simp only [List.foldl_cons, ih, mem_setAdd, List.mem_cons]
    tauto

/-- Membership in a school-accumulation fold: the starting set plus the
schools of every entry whose level key passes the filter. -/
theorem mem_gather {α : Type} (f : α → List String) (level : Int)
    (entries : List (Option Int × α)) :
    ∀ (acc : List String) (s : String),
      s ∈ entries.foldl
          (fun a e => if keyLe e.1 level then (f e.2).foldl setAdd a else a) acc ↔
        s ∈ acc ∨ ∃ e ∈ entries, keyLe e.1 level = true ∧ s ∈ f e.2 := by
  induction entries with
  | nil => simp
  | cons e rest ih =>
    intro acc s
    simp only [List.foldl_cons, List.mem_cons, exists_eq_or_imp]
    cases hk : keyLe e.1 level with
    | false =>
      simp only [hk, Bool.false_eq_true, if_false, ih, false_and, false_or]
    | true =>
      simp only [hk, if_true, ih, mem_foldl_setAdd, true_and]
      tauto

/-- The school-accumulation fold is monotone in the level and in the
starting set. -/
theorem gather_mono {α : Type} (f : α → List String) {l l1 : Int} (h : l ≤ l1)
    (entries : List (Option Int × α)) {acc acc1 : List String}
    (hacc : ∀ s, s ∈ acc → s ∈ acc1) :
    ∀ s, s ∈ entries.foldl
        (fun a e => if keyLe e.1 l then (f e.2).foldl setAdd a else a) acc →
      s ∈ entries.foldl
        (fun a e => if keyLe e.1 l1 then (f e.2).foldl setAdd a else a) acc1 := by
  intro s hs
  rw [mem_gather] at hs ⊢
  rcases hs with hs | ⟨e, he, hk, hf⟩
  · exact Or.inl (hacc s hs)
  · exact Or.inr ⟨e, he, keyLe_mono h hk, hf⟩

/-- The granted component of getSpellSchools when the class is absent. -/
theorem getSpellSchools_granted_eq_none (table : List (String × SchoolsClassData))
    (cls : String) (level : Int) (sub : Option String)
    (hcd : alookup table cls = none) :
    (getSpellSchools table cls level sub).granted = [] := by
  unfold getSpellSchools
  rw [hcd]

/-- The granted component with no subclass selected. -/
theorem getSpellSchools_granted_base (table : List (String × SchoolsClassData))
    (cls : String) (level : Int) (cd : SchoolsClassData)
    (hcd : alookup table cls = some cd) :
    (getSpellSchools table cls level none).granted = gatherBaseGranted cd level := by
  simp [getSpellSchools, spellSchoolsForClass, hcd]

/-- The granted component when the selected subclass has no entry. -/
theorem getSpellSchools_granted_sub_none (table : List (String × SchoolsClassData))
    (cls : String) (level : Int) (s1 : String) (cd : SchoolsClassData)
    (hcd : alookup table cls = some cd) (hsd : alookup cd.subclasses s1 = none) :
    (getSpellSchools table cls level (some s1)).granted = gatherBaseGranted cd level := by
  simp [getSpellSchools, spellSchoolsForClass, hcd, hsd]

/-- The granted component when the selected subclass has an entry. -/
theorem getSpellSchools_granted_sub_some (table : List (String × SchoolsClassData))
    (cls : String) (level : Int) (s1 : String) (cd : SchoolsClassData)
    (subData : List (Option Int × SubSchoolsVal))
    (hcd : alookup table cls = some cd)
    (hsd : alookup cd.subclasses s1 = some subData) :
    (getSpellSchools table cls level (some s1)).granted =
      gatherSubGranted subData level (gatherBaseGranted cd level) := by
  simp [getSpellSchools, spellSchoolsForClass, hcd, hsd]

/-- Claim C6: for every class identifier, fixed subclass selection, and level
greater than 1, every school granted at level - 1 is still granted at
the level itself — a school once granted is never revoked. -/
theorem getSpellSchools_granted_superset (table : List (String × SchoolsClassData))
    (cls : String) (level : Int) (sub : Option String) (s : String)
    (_hl : 1 < level)
    (h : s ∈ (getSpellSchools table cls (level - 1) sub).granted) :
    s ∈ (getSpellSchools table cls level sub).granted := by
  have hmono : level - 1 ≤ level := by omega
  cases hcd : alookup table cls with
  | none =>
    rw [getSpellSchools_granted_eq_none table cls (level - 1) sub hcd] at h
    simp at h
  | some cd =>
    cases sub with
    | none =>
      rw [getSpellSchools_granted_base table cls (level - 1) cd hcd] at h
      rw [getSpellSchools_granted_base table cls level cd hcd]
      exact gather_mono baseValSchools hmono cd.base (fun _ hx => hx) s h
    | some s1 =>
      cases hsd : alookup cd.subclasses s1 with
      | none =>
        rw [getSpellSchools_granted_sub_none table cls (level - 1) s1 cd hcd hsd] at h
        rw [getSpellSchools_granted_sub_none table cls level s1 cd hcd hsd]
        exact gather_mono baseValSchools hmono cd.base (fun _ hx => hx) s h
      | some subData =>
        rw [getSpellSchools_granted_sub_some table cls (level - 1) s1 cd subData hcd hsd] at h
        rw [getSpellSchools_granted_sub_some table cls level s1 cd subData hcd hsd]
        exact gather_mono subValSchools hmono subData
          (gather_mono baseValSchools hmono cd.base (fun _ hx => hx)) s h

/-- Witness for C6: a concrete table where a school granted at level 1 is
still granted at level 2. -/
theorem getSpellSchools_granted_superset_witness :
    (1 : Int) < 2 ∧
    "fire" ∈ (getSpellSchools
      [("mage", ⟨[(some 1, BaseSchoolsVal.arr [SchoolEntry.str "+fire"])], [], []⟩)]
      "mage" 2 none).granted :=
  ⟨by decide,
   getSpellSchools_granted_superset
     [("mage", ⟨[(some 1, BaseSchoolsVal.arr [SchoolEntry.str "+fire"])], [], []⟩)]
     "mage" 2 none "fire" (by decide) (by decide)⟩

/-! ### Claim C8 -/

/-- Claim C8: granting a resolvable identity twice produces two owned records
with distinct fresh local identities, both carrying a content-source
back-reference equal to the original identity, and
actorHasItemFromSource holds after either grant. -/
theorem grantItemsByUuid_twice (env : GrantEnv) (a : Actor) (uuid : String)
    (nextId : Nat) (d : SourceDoc) (hres : alookup env.docs uuid = some d) :
    ∃ i1 i2 : OwnedItem,
      (grantItemsByUuid env a [uuid] nextId).2.1 = [i1] ∧
      (grantItemsByUuid env (grantItemsByUuid env a [uuid] nextId).1 [uuid]
        (grantItemsByUuid env a [uuid] nextId).2.2).2.1 = [i2] ∧
      i1.localId ≠ i2.localId ∧
      i1.compendiumSource = some uuid ∧
      i2.compendiumSource = some uuid ∧
      (grantItemsByUuid env (grantItemsByUuid env a [uuid] nextId).1 [uuid]
        (grantItemsByUuid env a [uuid] nextId).2.2).1.items =
        a.items ++ [i1] ++ [i2] ∧
      actorHasItemFromSource (grantItemsByUuid env a [uuid] nextId).1 uuid = true ∧
      actorHasItemFromSource
        (grantItemsByUuid env (grantItemsByUuid env a [uuid] nextId).1 [uuid]
          (grantItemsByUuid env a [uuid] nextId).2.2).1 uuid = true := by
  have h1 : grantItemsByUuid env a [uuid] nextId =
      (⟨a.items ++ [⟨nextId, d.name, d.docType, some uuid, d.flagSourceId⟩]⟩,
       [⟨nextId, d.name, d.docType, some uuid, d.flagSourceId⟩], nextId + 1) := by
    simp [grantItemsByUuid, grantLoop, prepareItemFromUuid, hres]
  have h2 : grantItemsByUuid env
      (⟨a.items ++ [⟨nextId, d.name, d.docType, some uuid, d.flagSourceId⟩]⟩ : Actor)
      [uuid] (nextId + 1) =
      (⟨(a.items ++ [⟨nextId, d.name, d.docType, some uuid, d.flagSourceId⟩]) ++
          [⟨nextId + 1, d.name, d.docType, some uuid, d.flagSourceId⟩]⟩,
       [⟨nextId + 1, d.name, d.docType, some uuid, d.flagSourceId⟩], nextId + 2) := by
    simp [grantItemsByUuid, grantLoop, prepareItemFromUuid, hres]
  refine ⟨⟨nextId, d.name, d.docType, some uuid, d.flagSourceId⟩,
          ⟨nextId + 1, d.name, d.docType, some uuid, d.flagSourceId⟩,
          ?_, ?_, ?_, rfl, rfl, ?_, ?_, ?_⟩
  · rw [h1]
  · rw [h1, h2]
  · simp
  · rw [h1, h2]
  · rw [h1]
    simp [actorHasItemFromSource, itemSource]
  · rw [h1, h2]
    simp [actorHasItemFromSource, itemSource]

/-- Witness for C8 at a concrete environment, actor and identity. -/
theorem grantItemsByUuid_twice_witness :
    ∃ i1 i2 : OwnedItem,
      (grantItemsByUuid ⟨[("uuid-1", ⟨"Sword", "object", none⟩)]⟩ ⟨[]⟩
        ["uuid-1"] 0).2.1 = [i1] ∧
      (grantItemsByUuid ⟨[("uuid-1", ⟨"Sword", "object", none⟩)]⟩
        (grantItemsByUuid ⟨[("uuid-1", ⟨"Sword", "object", none⟩)]⟩ ⟨[]⟩
          ["uuid-1"] 0).1 ["uuid-1"]
        (grantItemsByUuid ⟨[("uuid-1", ⟨"Sword", "object", none⟩)]⟩ ⟨[]⟩
          ["uuid-1"] 0).2.2).2.1 = [i2] ∧
      i1.localId ≠ i2.localId ∧
      i1.compendiumSource = some "uuid-1" ∧
      i2.compendiumSource = some "uuid-1" ∧
      (grantItemsByUuid ⟨[("uuid-1", ⟨"Sword", "object", none⟩)]⟩
        (grantItemsByUuid ⟨[("uuid-1", ⟨"Sword", "object", none⟩)]⟩ ⟨[]⟩
          ["uuid-1"] 0).1 ["uuid-1"]
        (grantItemsByUuid ⟨[("uuid-1", ⟨"Sword", "object", none⟩)]⟩ ⟨[]⟩
          ["uuid-1"] 0).2.2).1.items =
        ([] : List OwnedItem) ++ [i1] ++ [i2] ∧
      actorHasItemFromSource
        (grantItemsByUuid ⟨[("uuid-1", ⟨"Sword", "object", none⟩)]⟩ ⟨[]⟩
          ["uuid-1"] 0).1 "uuid-1" = true ∧
      actorHasItemFromSource
        (grantItemsByUuid ⟨[("uuid-1", ⟨"Sword", "object", none⟩)]⟩
          (grantItemsByUuid ⟨[("uuid-1", ⟨"Sword", "object", none⟩)]⟩ ⟨[]⟩
            ["uuid-1"] 0).1 ["uuid-1"]
          (grantItemsByUuid ⟨[("uuid-1", ⟨"Sword", "object", none⟩)]⟩ ⟨[]⟩
            ["uuid-1"] 0).2.2).1 "uuid-1" = true :=
  grantItemsByUuid_twice ⟨[("uuid-1", ⟨"Sword", "object", none⟩)]⟩ ⟨[]⟩
    "uuid-1" 0 ⟨"Sword", "object", none⟩ rfl

/-! ### Claim C4 -/

/-- Claim C4: findFeaturesByName is total (hence never throws) and returns
exactly one result record per input name in input order; a name with no
candidates after the direct lookup is retried with a trailing
parenthesized numeric suffix stripped; a candidate whose class matches
the requested class is preferred, otherwise the first candidate is
taken; and a name with no match at all yields a record with matched
false, a null identity and the placeholder image. -/
theorem findFeaturesByName_spec (featureIndex : List (String × List FeatureData))
    (featureNames : List String) (cls : String) :
    (findFeaturesByName featureIndex featureNames cls).map FeatureResult.name =
      featureNames ∧
    (findFeaturesByName featureIndex featureNames cls).length =
      featureNames.length ∧
    (∀ key : String, (alookup featureIndex key).getD [] = [] →
      resolveCandidates featureIndex key =
        (alookup featureIndex (stripNumericSuffix key)).getD []) ∧
    (∀ key : String, (alookup featureIndex key).getD [] ≠ [] →
      resolveCandidates featureIndex key = (alookup featureIndex key).getD []) ∧
    ∀ name ∈ featureNames,
      ∃ r ∈ findFeaturesByName featureIndex featureNames cls,
        r.name = name ∧
        (resolveCandidates featureIndex (normalizeString name) = [] →
          r.matched = false ∧ r.uuid = none ∧
          r.img = "icons/svg/mystery-man.svg" ∧ r.description = "") ∧
        ((∃ c ∈ resolveCandidates featureIndex (normalizeString name),
            c.normalizedClass = normalizeString cls) →
          ∃ c ∈ resolveCandidates featureIndex (normalizeString name),
            c.normalizedClass = normalizeString cls ∧
            r.matched = true ∧ r.uuid = some c.uuid) ∧
        ((∀ c ∈ resolveCandidates featureIndex (normalizeString name),
            c.normalizedClass ≠ normalizeString cls) →
          ∀ c0, (resolveCandidates featureIndex (normalizeString name)).head? = some c0 →
            r.matched = true ∧ r.uuid = some c0.uuid) := by
  refine ⟨?_, ?_, ?_, ?_, ?_⟩
  · simp only [findFeaturesByName, List.map_map]
    have h0 : FeatureResult.name ∘ findFeatureOne featureIndex (normalizeString cls) = id :=
      funext fun n => rfl
    rw [h0, List.map_id]
  · simp [findFeaturesByName]
  · intro key hkey
    by_cases hstrip : stripNumericSuffix key ≠ key
    · simp [resolveCandidates, hkey, hstrip]
    · push_neg at hstrip
      simp [resolveCandidates, hkey, hstrip]
  · intro key hkey
    simp [resolveCandidates, List.isEmpty_iff, hkey]
  · intro name hmem
    refine ⟨findFeatureOne featureIndex (normalizeString cls) name,
      List.mem_map_of_mem _ hmem, rfl, ?_, ?_, ?_⟩
    · intro hempty
      simp [findFeatureOne, hempty]
    · intro hex
      have hfind : (resolveCandidates featureIndex (normalizeString name)).find?
          (fun c => c.normalizedClass = normalizeString cls) ≠ none := by
        intro hnone
        rw [List.find?_eq_none] at hnone
        obtain ⟨c, hc, hcls⟩ := hex
        exact absurd (by simpa using hcls) (by simpa using hnone c hc)
      obtain ⟨c, hc⟩ := Option.ne_none_iff_exists.mp hfind
      refine ⟨c, List.mem_of_find?_eq_some hc.symm, ?_, ?_, ?_⟩
      · have := List.find?_some hc.symm
        simpa using this
      · simp [findFeatureOne, ← hc]
      · simp [findFeatureOne, ← hc]
    · intro hall c0 hc0
      have hfind : (resolveCandidates featureIndex (normalizeString name)).find?
          (fun c => c.normalizedClass = normalizeString cls) = none := by
        rw [List.find?_eq_none]
        intro c hc
        simpa using hall c hc
      constructor
      · simp [findFeatureOne, hfind, hc0]
      · simp [findFeatureOne, hfind, hc0]

/-- Witness for C4 on a concrete index: a rule-table name with a numeric
suffix resolves through the stripped base name, and an unknown name
degrades to a placeholder record. -/
theorem findFeaturesByName_spec_witness :
    (findFeaturesByName
      [("rage", [⟨"u1", "Rage", "img1", "berserker", "berserker", "", "", "", [1], false⟩])]
      ["Rage (2)", "Unknown"] "berserker").map FeatureResult.name =
      ["Rage (2)", "Unknown"] ∧
    (∃ r ∈ findFeaturesByName
      [("rage", [⟨"u1", "Rage", "img1", "berserker", "berserker", "", "", "", [1], false⟩])]
      ["Rage (2)", "Unknown"] "berserker",
      r.name = "Unknown" ∧ r.matched = false ∧ r.uuid = none ∧
      r.img = "icons/svg/mystery-man.svg") := by
  have h := findFeaturesByName_spec
    [("rage", [⟨"u1", "Rage", "img1", "berserker", "berserker", "", "", "", [1], false⟩])]
    ["Rage (2)", "Unknown"] "berserker"
  refine ⟨h.1, ?_⟩
  obtain ⟨r, hr, hname, hempty, -, -⟩ := h.2.2.2.2 "Unknown" (by simp)
  obtain ⟨hm, hu, himg, -⟩ := hempty (by decide)
  exact ⟨r, hr, hname, hm, hu, himg⟩

/-! ### Claim C1 -/

/-- The progression records contributed by one feature entry, mirroring the
branch structure of the getClassFeatures loop body. -/
def progContribution (fromLevel toLevel : Int) (sub : Option String)
    (f : FeatureData) : List ProgressionEntry :=
  if (levelsInRange f fromLevel toLevel).isEmpty then []
  else if subclassMismatch sub f then []
  else if !f.subclass && !isProgressionGroup f then []
  else progressionEntriesFor f (levelsInRange f fromLevel toLevel)

/-- Whether a feature entry lands in a selectable-group bucket: some grant
level in range, not a mismatched subclass entry, not subclass-flagged
and not a "-progression" group. -/
def selectableEligible (fromLevel toLevel : Int) (sub : Option String)
    (f : FeatureData) : Bool :=
  !(levelsInRange f fromLevel toLevel).isEmpty && !subclassMismatch sub f &&
    !f.subclass && !isProgressionGroup f

theorem gcfLoop_fst (fromLevel toLevel : Int) (sub : Option String) :
    ∀ (fs : List FeatureData) (prog : List ProgressionEntry) (groups : GroupMap),
      (gcfLoop fromLevel toLevel sub fs prog groups).1 =
        prog ++ fs.flatMap (progContribution fromLevel toLevel sub) := by
  intro fs
  induction fs with
  | nil => intro prog groups; simp [gcfLoop]
  | cons f rest ih =>
    intro prog groups
    cases h1 : (levelsInRange f fromLevel toLevel).isEmpty with
    | true => simp [gcfLoop, h1, ih, progContribution]
    | false =>
      cases h2 : subclassMismatch sub f with
      | true => simp [gcfLoop, h1, h2, ih, progContribution]
      | false =>
        cases h3 : !f.subclass && !isProgressionGroup f with
        | true => simp [gcfLoop, h1, h2, h3, ih, progContribution]
        | false => simp [gcfLoop, h1, h2, h3, ih, progContribution]

theorem groupLookupD_groupAdd (g : GroupMap) (k0 : String) (f : FeatureData)
    (k : String) :
    groupLookupD (groupAdd g k0 f) k =
      if k = k0 then groupLookupD g k ++ [f] else groupLookupD g k := by
  induction g with
  | nil =>
    by_cases hk : k = k0
    · subst hk; simp [groupAdd, groupLookupD, alookup]
    · have hk1 : ¬ k0 = k := fun h => hk h.symm
      simp [groupAdd, groupLookupD, alookup, hk, hk1]
  | cons e rest ih =>
    obtain ⟨k1, l⟩ := e
    by_cases h1 : k1 = k0
    · subst h1
      by_cases hk : k1 = k
      · subst hk
        simp [groupAdd, groupLookupD, alookup]
      · have hk1 : ¬ k = k1 := fun h => hk h.symm
        simp [groupAdd, groupLookupD, alookup, hk, hk1]
    · by_cases hk : k1 = k
      · subst hk
        simp [groupAdd, h1, groupLookupD, alookup]
      · simp only [groupAdd, if_neg h1, groupLookupD, alookup, if_neg hk]
        exact ih

theorem gcfLoop_snd (fromLevel toLevel : Int) (sub : Option String) :
    ∀ (fs : List FeatureData) (prog : List ProgressionEntry) (groups : GroupMap)
      (k : String),
      groupLookupD (gcfLoop fromLevel toLevel sub fs prog groups).2 k =
        groupLookupD groups k ++
          fs.filter (fun f => selectableEligible fromLevel toLevel sub f &&
            f.group = k) := by
  intro fs
  induction fs with
  | nil => intro prog groups k; simp [gcfLoop]
  | cons f rest ih =>
    intro prog groups k
    cases h1 : (levelsInRange f fromLevel toLevel).isEmpty with
    | true => simp [gcfLoop, h1, ih, selectableEligible]
    | false =>
      cases h2 : subclassMismatch sub f with
      | true => simp [gcfLoop, h1, h2, ih, selectableEligible]
      | false =>
        cases h3 : !f.subclass && !isProgressionGroup f with
        | false => simp [gcfLoop, h1, h2, h3, ih, selectableEligible]
        | true =>
          simp only [gcfLoop, h1, h2, h3, Bool.false_eq_true, if_false, if_true,
            Bool.true_eq_false, ih, groupLookupD_groupAdd, selectableEligible,
            Bool.not_true, Bool.not_false, Bool.true_and, Bool.and_true]
          by_cases hk : f.group = k
          · subst hk
            simp [h1, h2, h3, List.filter_cons, selectableEligible]
          · have : ¬ k = f.group := fun h => hk h.symm
            simp [this, hk, h1, h2, h3, List.filter_cons, selectableEligible]

/-- Number of progression records carrying a given content identity and
level. -/
def progCount (prog : List ProgressionEntry) (u : String) (l : Int) : Nat :=
  (prog.filter (fun e => e.uuid = u && e.level = l)).length

theorem progCount_append (p q : List ProgressionEntry) (u : String) (l : Int) :
    progCount (p ++ q) u l = progCount p u l + progCount q u l := by
  simp [progCount, List.filter_append]

theorem mem_progContribution_uuid {fromLevel toLevel : Int} {sub : Option String}
    {f1 : FeatureData} {e : ProgressionEntry}
    (he : e ∈ progContribution fromLevel toLevel sub f1) : e.uuid = f1.uuid := by
  unfold progContribution at he
  split at he
  · simp at he
  · split at he
    · simp at he
    · split at he
      · simp at he
      · unfold progressionEntriesFor at he
        simp only [List.mem_map] at he
        obtain ⟨lv, _, rfl⟩ := he
        rfl

theorem progCount_contribution_ne (fromLevel toLevel : Int) (sub : Option String)
    (f1 : FeatureData) (u : String) (l : Int) (hne : f1.uuid ≠ u) :
    progCount (progContribution fromLevel toLevel sub f1) u l = 0 := by
  unfold progCount
  rw [List.length_eq_zero]
  rw [List.filter_eq_nil_iff]
  intro e he
  have := mem_progContribution_uuid he
  simp only [Bool.and_eq_true, decide_eq_true_eq, not_and]
  intro hu
  exact absurd (this ▸ hu) hne

theorem progCount_entriesFor (f : FeatureData) (L : List Int) (l : Int) :
    progCount (progressionEntriesFor f L) f.uuid l =
      (L.filter (fun x => x = l)).length := by
  induction L with
  | nil => simp [progCount, progressionEntriesFor]
  | cons x rest ih =>
    by_cases hx : x = l <;>
      simp [progCount, progressionEntriesFor, List.filter_cons, hx] <;>
      simpa [progCount, progressionEntriesFor] using ih

theorem progCount_bind_zero (fromLevel toLevel : Int) (sub : Option String)
    (fs : List FeatureData) (u : String) (l : Int)
    (h : ∀ f1 ∈ fs, f1.uuid ≠ u) :
    progCount (fs.flatMap (progContribution fromLevel toLevel sub)) u l = 0 := by
  induction fs with
  | nil => simp [progCount]
  | cons g rest ih =>
    rw [List.flatMap_cons, progCount_append]
    rw [progCount_contribution_ne fromLevel toLevel sub g u l
      (h g (List.mem_cons_self g rest))]
    rw [ih (fun f1 hf1 => h f1 (List.mem_cons_of_mem g hf1))]

theorem progCount_bind (fromLevel toLevel : Int) (sub : Option String)
    (fs : List FeatureData) (f : FeatureData) (l : Int)
    (hmem : f ∈ fs) (hnd : fs.Pairwise (fun a b => a.uuid ≠ b.uuid)) :
    progCount (fs.flatMap (progContribution fromLevel toLevel sub)) f.uuid l =
      progCount (progContribution fromLevel toLevel sub f) f.uuid l := by
  induction fs with
  | nil => simp at hmem
  | cons g rest ih =>
    rw [List.flatMap_cons, progCount_append]
    rw [List.pairwise_cons] at hnd
    rcases List.mem_cons.mp hmem with rfl | hmem1
    · rw [progCount_bind_zero fromLevel toLevel sub rest f.uuid l
        (fun f1 hf1 => (hnd.1 f1 hf1).symm)]
      omega
    · rw [progCount_contribution_ne fromLevel toLevel sub g f.uuid l
        (hnd.1 f hmem1)]
      rw [ih hmem1 hnd.2]
      omega

theorem filter_eq_self_length_one {fs : List FeatureData} {f : FeatureData}
    (hmem : f ∈ fs) (hnd : fs.Pairwise (fun a b => a.uuid ≠ b.uuid)) :
    (fs.filter (fun x => x = f)).length = 1 := by
  induction fs with
  | nil => simp at hmem
  | cons g rest ih =>
    rw [List.pairwise_cons] at hnd
    by_cases hg : g = f
    · subst hg
      have hrest : rest.filter (fun x => x = g) = [] := by
        rw [List.filter_eq_nil_iff]
        intro x hx
        simp only [decide_eq_true_eq]
        intro hxg
        exact hnd.1 x hx (congrArg FeatureData.uuid hxg).symm
      simp [List.filter_cons, hrest]
    · rcases List.mem_cons.mp hmem with rfl | hmem1
      · exact absurd rfl hg
      · simp only [List.filter_cons, decide_eq_true_eq, hg, if_false]
        exact ih hmem1 hnd.2

theorem getClassFeatures_progression (featureByClassIndex : List (String × List FeatureData))
    (cls : String) (fromLevel toLevel : Int) (sub : Option String) :
    (getClassFeatures featureByClassIndex cls fromLevel toLevel sub).progression =
      (classFeatureList featureByClassIndex cls).flatMap
        (progContribution fromLevel toLevel sub) := by
  simp [getClassFeatures, gcfLoop_fst]

theorem getClassFeatures_groups (featureByClassIndex : List (String × List FeatureData))
    (cls : String) (fromLevel toLevel : Int) (sub : Option String) (k : String) :
    groupLookupD (getClassFeatures featureByClassIndex cls fromLevel toLevel sub).selectableGroups k =
      (classFeatureList featureByClassIndex cls).filter
        (fun f => selectableEligible fromLevel toLevel sub f && f.group = k) := by
  simp only [getClassFeatures]
  rw [gcfLoop_snd]
  simp [groupLookupD, alookup]

/-- Anything found in a selectable-group bucket got there through the
selectable branch of the loop: some grant level in range, no subclass
mismatch, subclass flag unset, group not "-progression"-suffixed, and
bucketed under its own group tag. -/
theorem mem_bucket_eligible {featureByClassIndex : List (String × List FeatureData)}
    {cls : String} {fromLevel toLevel : Int} {sub : Option String} {k : String}
    {f : FeatureData}
    (h : f ∈ groupLookupD
      (getClassFeatures featureByClassIndex cls fromLevel toLevel sub).selectableGroups k) :
    (levelsInRange f fromLevel toLevel).isEmpty = false ∧
    subclassMismatch sub f = false ∧ f.subclass = false ∧
    isProgressionGroup f = false ∧ f.group = k := by
  rw [getClassFeatures_groups] at h
  have h2 := (List.mem_filter.mp h).2
  simp only [selectableEligible, Bool.and_eq_true, Bool.not_eq_true',
    decide_eq_true_eq] at h2
  obtain ⟨⟨⟨⟨hL, hM⟩, hS⟩, hP⟩, hG⟩ := h2
  exact ⟨hL, hM, hS, hP, hG⟩

/-- Claim C1: for every class, subclass selection and level range,
getClassFeatures partitions the class's indexed feature entries that
have a grant level in range: an entry with a mismatched subclass flag
appears nowhere; an entry whose group ends in "-progression" or whose
subclass flag matches the selected subclass appears in the progression
output once per grant level in range; every other entry appears exactly
once in the selectableGroups bucket keyed by its group tag and in no
other bucket, not duplicated per level.  Content identities are assumed
pairwise distinct across the class's index entries, per the catalog
invariant. -/
theorem getClassFeatures_partition (featureByClassIndex : List (String × List FeatureData))
    (cls : String) (fromLevel toLevel : Int) (sub : Option String) (f : FeatureData)
    (hf : f ∈ classFeatureList featureByClassIndex cls)
    (hnd : (classFeatureList featureByClassIndex cls).Pairwise
      (fun a b => a.uuid ≠ b.uuid)) :
    (subclassMismatch sub f = true →
      (∀ l : Int, progCount
        (getClassFeatures featureByClassIndex cls fromLevel toLevel sub).progression
        f.uuid l = 0) ∧
      (∀ k : String, f ∉ groupLookupD
        (getClassFeatures featureByClassIndex cls fromLevel toLevel sub).selectableGroups k)) ∧
    (subclassMismatch sub f = false →
      (isProgressionGroup f = true ∨ f.subclass = true) →
      (∀ l : Int, progCount
        (getClassFeatures featureByClassIndex cls fromLevel toLevel sub).progression
        f.uuid l =
          ((levelsInRange f fromLevel toLevel).filter (fun x => x = l)).length) ∧
      (∀ k : String, f ∉ groupLookupD
        (getClassFeatures featureByClassIndex cls fromLevel toLevel sub).selectableGroups k)) ∧
    (f.subclass = false → isProgressionGroup f = false →
      (∀ l : Int, progCount
        (getClassFeatures featureByClassIndex cls fromLevel toLevel sub).progression
        f.uuid l = 0) ∧
      (levelsInRange f fromLevel toLevel ≠ [] →
        ((groupLookupD
          (getClassFeatures featureByClassIndex cls fromLevel toLevel sub).selectableGroups
          f.group).filter (fun x => x = f)).length = 1) ∧
      (∀ k : String, k ≠ f.group → f ∉ groupLookupD
        (getClassFeatures featureByClassIndex cls fromLevel toLevel sub).selectableGroups k) ∧
      (levelsInRange f fromLevel toLevel = [] → f ∉ groupLookupD
        (getClassFeatures featureByClassIndex cls fromLevel toLevel sub).selectableGroups
        f.group)) := by
  have hcount : ∀ l : Int,
      progCount (getClassFeatures featureByClassIndex cls fromLevel toLevel sub).progression
        f.uuid l =
      progCount (progContribution fromLevel toLevel sub f) f.uuid l := by
    intro l
    rw [getClassFeatures_progression]
    exact progCount_bind fromLevel toLevel sub _ f l hf hnd
  refine ⟨?_, ?_, ?_⟩
  · intro hmis
    constructor
    · intro l
      rw [hcount l]
      unfold progContribution
      cases hL : (levelsInRange f fromLevel toLevel).isEmpty <;>
        simp [hL, hmis, progCount]
    · intro k hmemk
      have he := mem_bucket_eligible hmemk
      rw [he.2.1] at hmis
      exact Bool.noConfusion hmis
  · intro hmis hor
    constructor
    · intro l
      rw [hcount l]
      unfold progContribution
      cases hL : (levelsInRange f fromLevel toLevel).isEmpty with
      | true =>
        rw [List.isEmpty_iff] at hL
        simp [hL, progCount]
      | false =>
        have h3 : (!f.subclass && !isProgressionGroup f) = false := by
          rcases hor with h | h <;> simp [h]
        simp [hL, hmis, h3, progCount_entriesFor]
    · intro k hmemk
      have he := mem_bucket_eligible hmemk
      rcases hor with h | h
      · rw [he.2.2.2.1] at h
        exact Bool.noConfusion h
      · rw [he.2.2.1] at h
        exact Bool.noConfusion h
  · intro hsub hpg
    have hmis : subclassMismatch sub f = false := by
      simp [subclassMismatch, hsub]
    have h3 : (!f.subclass && !isProgressionGroup f) = true := by
      simp [hsub, hpg]
    refine ⟨?_, ?_, ?_, ?_⟩
    · intro l
      rw [hcount l]
      unfold progContribution
      cases hL : (levelsInRange f fromLevel toLevel).isEmpty <;>
        simp [hL, hmis, h3, progCount]
    · intro hne
      have hL : (levelsInRange f fromLevel toLevel).isEmpty = false := by
        cases hL1 : (levelsInRange f fromLevel toLevel).isEmpty
        · rfl
        · rw [List.isEmpty_iff] at hL1
          exact absurd hL1 hne
      rw [getClassFeatures_groups, List.filter_filter]
      rw [List.filter_congr (q := fun x => decide (x = f)) ?_]
      · exact filter_eq_self_length_one hf hnd
      · intro x hx
        by_cases hxf : x = f
        · subst hxf
          simp [selectableEligible, hL, hmis, hsub, hpg]
        · simp [hxf]
    · intro k hk hmemk
      have he := mem_bucket_eligible hmemk
      exact hk he.2.2.2.2.symm
    · intro hLnil hmemk
      have he := mem_bucket_eligible hmemk
      rw [hLnil] at he
      exact Bool.noConfusion he.1

/-- Witness for C1: a concrete one-entry index where a selectable feature
of the class lands exactly once in its group bucket. -/
theorem getClassFeatures_partition_witness :
    ((groupLookupD
      (getClassFeatures
        [("berserker",
          [⟨"u1", "Savage Arsenal Pick", "img1", "berserker", "berserker", "",
            "savage-arsenal", "", [2, 5], false⟩])]
        "berserker" 1 3 none).selectableGroups
      "savage-arsenal").filter
      (fun x => x =
        ⟨"u1", "Savage Arsenal Pick", "img1", "berserker", "berserker", "",
          "savage-arsenal", "", [2, 5], false⟩)).length = 1 := by
  have h := getClassFeatures_partition
    [("berserker",
      [⟨"u1", "Savage Arsenal Pick", "img1", "berserker", "berserker", "",
        "savage-arsenal", "", [2, 5], false⟩])]
    "berserker" 1 3 none
    ⟨"u1", "Savage Arsenal Pick", "img1", "berserker", "berserker", "",
      "savage-arsenal", "", [2, 5], false⟩
    (by decide) (by decide)
  exact (h.2.2 rfl rfl).2.1 (by decide)

end NimbleSelector
